import Mathlib

/-!
Verification of the buffered UART driver (`src/uart/buffered.rs`) of the
embassy-imxrt repository.  The Rust driver is shallowly embedded: machine
integers become `Nat` with explicit bit masks, register effects become fields
of explicit effect records, and the interrupt handler's drain loops become
structural recursions.  The byte ring buffer comes from the external crate
`embassy_hal_internal` whose source is not part of this repository; it is
modelled from the specification's description (spec sections 3 and 4.1).
-/

namespace EmbassyImxrt

/-- Transport fault categories surfaced to consumers, mirroring the driver's
`Error` variants used by `buffered.rs` (noise, parity, framing, break). -/
inductive Error where
  | Noise
  | Parity
  | Framing
  | Break
deriving DecidableEq

/-- Bit mask of the noise fault in the STAT register, `RXE_NOISE = 1 << 15`. -/
def RXE_NOISE : Nat := 1 <<< 15

/-- Bit mask of the parity fault, `RXE_PARITYERR = 1 << 14`. -/
def RXE_PARITYERR : Nat := 1 <<< 14

/-- Bit mask of the framing fault, `RXE_FRAMERR = 1 << 13`. -/
def RXE_FRAMERR : Nat := 1 <<< 13

/-- Bit mask of the break fault, `RXE_BREAK = 1 << 10`. -/
def RXE_BREAK : Nat := 1 <<< 10

/-- Combined fault mask, exactly the expression
`RXE_BREAK | RXE_FRAMERR | RXE_NOISE | RXE_PARITYERR` tested by the RX drain
loop of `BufferedInterruptHandler::on_interrupt`. -/
def RXE_MASK : Nat := RXE_BREAK ||| RXE_FRAMERR ||| RXE_NOISE ||| RXE_PARITYERR

/-- Modelled from the spec: the SPSC byte ring buffer provided by
`embassy_hal_internal::atomic_ring_buffer`, whose source is outside this
repository.  Spec section 3: a read cursor and a write cursor, conceptually
unbounded counters taken modulo `cap` for addressing, with invariant
`0 ≤ wpos - rpos ≤ cap`; push and pop operate on the largest contiguous
slice (spec section 4.1). -/
structure RingBuffer where
  cap : Nat
  data : List Nat
  rpos : Nat
  wpos : Nat
deriving DecidableEq

/-- Number of queued bytes, the wrapping distance between the cursors. -/
def RingBuffer.used (rb : RingBuffer) : Nat := rb.wpos - rb.rpos

/-- Modelled from the spec: `is_empty` of the ring buffer. -/
def RingBuffer.isEmpty (rb : RingBuffer) : Bool := rb.used == 0

/-- Modelled from the spec: `is_full` of the ring buffer. -/
def RingBuffer.isFull (rb : RingBuffer) : Bool := rb.used == rb.cap

/-- Well-formedness of a ring buffer: the backing storage has length `cap`
and the cursors satisfy the spec invariant `0 ≤ wpos - rpos ≤ cap`. -/
def RingBuffer.wf (rb : RingBuffer) : Prop :=
  0 < rb.cap ∧ rb.data.length = rb.cap ∧ rb.rpos ≤ rb.wpos ∧ rb.wpos ≤ rb.rpos + rb.cap

/-- Modelled from the spec: length of the largest contiguous writable slice
handed to a `push` closure — free space, capped at the distance to the wrap
point of the backing storage. -/
def RingBuffer.pushSliceLen (rb : RingBuffer) : Nat :=
  min (rb.cap - rb.used) (rb.cap - rb.wpos % rb.cap)

/-- Modelled from the spec: length of the largest contiguous readable slice
handed to a `pop` closure — queued bytes, capped at the distance to the wrap
point of the backing storage. -/
def RingBuffer.popSliceLen (rb : RingBuffer) : Nat :=
  min rb.used (rb.cap - rb.rpos % rb.cap)

/-- Modelled from the spec: the contiguous readable slice itself. -/
def RingBuffer.popSlice (rb : RingBuffer) : List Nat :=
  (rb.data.drop (rb.rpos % rb.cap)).take rb.popSliceLen

/-- Write the bytes `bs` into consecutive positions of `d` starting at `i`. -/
def setBytes : List Nat → Nat → List Nat → List Nat
  | d, _, [] => d
  | d, i, b :: bs => setBytes (d.set i b) (i + 1) bs

/-- Modelled from the spec: advance the write cursor after a push. -/
def RingBuffer.pushDone (rb : RingBuffer) (n : Nat) : RingBuffer :=
  { rb with wpos := rb.wpos + n }

/-- Modelled from the spec: advance the read cursor after a pop. -/
def RingBuffer.popDone (rb : RingBuffer) (n : Nat) : RingBuffer :=
  { rb with rpos := rb.rpos + n }

/-- Modelled from the spec: a completed push of the bytes `bs` — store them
at the write position of the contiguous writable region and advance the
write cursor. -/
def RingBuffer.pushBytes (rb : RingBuffer) (bs : List Nat) : RingBuffer :=
  { rb with data := setBytes rb.data (rb.wpos % rb.cap) bs, wpos := rb.wpos + bs.length }

/-- Lean embedding of `BufferedUartRx::get_rx_error` (`buffered.rs` 270-288):
read the latched error word, reset it to zero, and synthesize at most one
`Error` by the fixed priority noise > parity > framing > break.  Returns the
synthesized error together with the new value of the latched word. -/
def get_rx_error (w : Nat) : Option Error × Nat :=
  let errs := w
  let e :=
    if errs &&& RXE_NOISE ≠ 0 then some Error.Noise
    else if errs &&& RXE_PARITYERR ≠ 0 then some Error.Parity
    else if errs &&& RXE_FRAMERR ≠ 0 then some Error.Framing
    else if errs &&& RXE_BREAK ≠ 0 then some Error.Break
    else none
  (e, 0)

/-- Joint lifecycle state of the two UART handles: availability of the RX and
TX ring buffers, and a counter of calls to `interrupt.disable()`. -/
structure LifeState where
  rxAvail : Bool
  txAvail : Bool
  irqDisables : Nat
deriving DecidableEq

/-- Lean embedding of `impl Drop for BufferedUartRx` (`buffered.rs` 489-499):
deinit the RX ring buffer, then disable the shared interrupt line exactly
when the TX ring buffer is not available. -/
def dropRx (s : LifeState) : LifeState :=
  let s2 := { s with rxAvail := false }
  if s2.txAvail then s2 else { s2 with irqDisables := s2.irqDisables + 1 }

/-- Lean embedding of `impl Drop for BufferedUartTx` (`buffered.rs` 501-511):
deinit the TX ring buffer, then disable the shared interrupt line exactly
when the RX ring buffer is not available. -/
def dropTx (s : LifeState) : LifeState :=
  let s2 := { s with txAvail := false }
  if s2.rxAvail then s2 else { s2 with irqDisables := s2.irqDisables + 1 }

/-- The fully dropped initial state used by the lifecycle scenarios: both
buffers attached, no disable issued yet. -/
def bothLive : LifeState := { rxAvail := true, txAvail := true, irqDisables := 0 }

/-- C3: for every latched error word with at least one of the four fault bits
set, the consumer-side take reports exactly one synthesized error, chosen by
the priority order noise > parity > framing > break, resets the latched word
to zero, and a second consecutive take with no interleaved latch reports no
error. -/
theorem c3_error_priority_and_reset (w : Nat)
    (hfault : w &&& RXE_NOISE ≠ 0 ∨ w &&& RXE_PARITYERR ≠ 0 ∨
      w &&& RXE_FRAMERR ≠ 0 ∨ w &&& RXE_BREAK ≠ 0) :
    (∃ e, (get_rx_error w).1 = some e ∧
      (w &&& RXE_NOISE ≠ 0 → e = Error.Noise) ∧
      (w &&& RXE_NOISE = 0 → w &&& RXE_PARITYERR ≠ 0 → e = Error.Parity) ∧
      (w &&& RXE_NOISE = 0 → w &&& RXE_PARITYERR = 0 → w &&& RXE_FRAMERR ≠ 0 →
        e = Error.Framing) ∧
      (w &&& RXE_NOISE = 0 → w &&& RXE_PARITYERR = 0 → w &&& RXE_FRAMERR = 0 →
        e = Error.Break)) ∧
    (get_rx_error w).2 = 0 ∧
    (get_rx_error ((get_rx_error w).2)).1 = none := by
  refine ⟨?_, rfl, by rw [show (get_rx_error w).2 = 0 from rfl]; decide⟩
  unfold get_rx_error
  by_cases hn : w &&& RXE_NOISE ≠ 0
  · exact ⟨Error.Noise, by simp [hn], fun _ => rfl, fun h => absurd h hn,
      fun h => absurd h hn, fun h => absurd h hn⟩
  · push_neg at hn
    by_cases hp : w &&& RXE_PARITYERR ≠ 0
    · exact ⟨Error.Parity, by simp [hn, hp], fun h => absurd hn h, fun _ _ => rfl,
        fun _ h => absurd h hp, fun _ h => absurd h hp⟩
    · push_neg at hp
      by_cases hf : w &&& RXE_FRAMERR ≠ 0
      · exact ⟨Error.Framing, by simp [hn, hp, hf], fun h => absurd hn h,
          fun _ h => absurd hp h, fun _ _ _ => rfl, fun _ _ h => absurd h hf⟩
      · push_neg at hf
        have hb : w &&& RXE_BREAK ≠ 0 := by
          rcases hfault with h | h | h | h
          · exact absurd hn h
          · exact absurd hp h
          · exact absurd hf h
          · exact h
        exact ⟨Error.Break, by simp [hn, hp, hf, hb], fun h => absurd hn h,
          fun _ h => absurd hp h, fun _ _ h => absurd hf h, fun _ _ _ => rfl⟩

/-- Witness for C3 at the concrete word with the parity and break bits set:
the synthesized error is parity (priority over break) and the word resets. -/
theorem c3_error_priority_and_reset_witness :
    ((17408 &&& RXE_NOISE ≠ 0 ∨ 17408 &&& RXE_PARITYERR ≠ 0 ∨
      17408 &&& RXE_FRAMERR ≠ 0 ∨ 17408 &&& RXE_BREAK ≠ 0) ∧
    ((∃ e, (get_rx_error 17408).1 = some e ∧
      (17408 &&& RXE_NOISE ≠ 0 → e = Error.Noise) ∧
      (17408 &&& RXE_NOISE = 0 → 17408 &&& RXE_PARITYERR ≠ 0 → e = Error.Parity) ∧
      (17408 &&& RXE_NOISE = 0 → 17408 &&& RXE_PARITYERR = 0 →
        17408 &&& RXE_FRAMERR ≠ 0 → e = Error.Framing) ∧
      (17408 &&& RXE_NOISE = 0 → 17408 &&& RXE_PARITYERR = 0 →
        17408 &&& RXE_FRAMERR = 0 → e = Error.Break)) ∧
    (get_rx_error 17408).2 = 0 ∧
    (get_rx_error ((get_rx_error 17408).2)).1 = none)) :=
  ⟨by decide, c3_error_priority_and_reset 17408 (by decide)⟩

/-- C4: for both interleavings of dropping the two handles, a drop disables
the shared interrupt line exactly when the other direction's buffer is
already unavailable at that moment; hence starting from both directions
live, dropping both in either order disables the line exactly once, and a
single drop while the other handle is live never disables it. -/
theorem c4_drop_interleavings (s : LifeState) :
    ((dropRx s).irqDisables = s.irqDisables + 1 ↔ s.txAvail = false) ∧
    ((dropRx s).irqDisables = s.irqDisables ↔ s.txAvail = true) ∧
    ((dropTx s).irqDisables = s.irqDisables + 1 ↔ s.rxAvail = false) ∧
    ((dropTx s).irqDisables = s.irqDisables ↔ s.rxAvail = true) ∧
    (dropTx (dropRx bothLive)).irqDisables = 1 ∧
    (dropRx (dropTx bothLive)).irqDisables = 1 ∧
    (dropRx bothLive).irqDisables = 0 ∧
    (dropTx bothLive).irqDisables = 0 := by
  refine ⟨?_, ?_, ?_, ?_, by decide, by decide, by decide, by decide⟩ <;>
    cases htx : s.txAvail <;> cases hrx : s.rxAvail <;>
      simp [dropRx, dropTx, htx, hrx]

/-- Effects of one call to `BufferedUartRx::try_read`: the poll result
(`none` is `Poll::Pending`), the bytes copied into the destination, the ring
buffer afterwards, the latched error word afterwards, whether the RX-level
FIFO interrupt-enable bit was set (`fifointenset` write), and whether
`get_rx_error` was invoked. -/
structure ReadEff where
  result : Option (Except Error Nat)
  bytes : List Nat
  rb : RingBuffer
  errWord : Nat
  rearm : Bool
  tookErr : Bool

/-- Lean embedding of `BufferedUartRx::try_read` (`buffered.rs` 290-316):
an empty destination returns `Ok(0)` at once; otherwise pop as many bytes as
the contiguous readable slice and the destination allow; on zero bytes take
the latched error word, returning the synthesized fault if one is present
and `Pending` otherwise; every ready return with a non-empty destination
re-arms the RX-level interrupt source. -/
def try_read (bufLen : Nat) (rb : RingBuffer) (errW : Nat) : ReadEff :=
  if bufLen = 0 then
    { result := some (Except.ok 0), bytes := [], rb := rb, errWord := errW,
      rearm := false, tookErr := false }
  else
    let n := min rb.popSliceLen bufLen
    let rb2 := rb.popDone n
    if n = 0 then
      match get_rx_error errW with
      | (none, w2) =>
        { result := none, bytes := [], rb := rb2, errWord := w2,
          rearm := false, tookErr := true }
      | (some e, w2) =>
        { result := some (Except.error e), bytes := [], rb := rb2, errWord := w2,
          rearm := true, tookErr := true }
    else
      { result := some (Except.ok n), bytes := rb.popSlice.take bufLen, rb := rb2,
        errWord := errW, rearm := true, tookErr := false }

/-- Lean embedding of the poll closure of `BufferedUartRx::read`
(`buffered.rs` 256-268): run `try_read`; when it is pending, register the
task's waker on the RX slot (second component) and stay pending. -/
def readPoll (bufLen : Nat) (rb : RingBuffer) (errW : Nat) : ReadEff × Bool :=
  let r := try_read bufLen rb errW
  match r.result with
  | some _ => (r, false)
  | none => (r, true)

/-- Effects of one poll of `BufferedUartTx::write`: the poll result, the TX
ring buffer afterwards, whether the interrupt was manually pended, and
whether the task's waker was registered on the TX slot. -/
structure WriteEff where
  result : Option (Except Error Nat)
  rb : RingBuffer
  pend : Bool
  wakerRegistered : Bool

/-- Lean embedding of the poll closure of `BufferedUartTx::write`
(`buffered.rs` 408-436): an empty source returns `Ok(0)` at once; otherwise
push into the contiguous writable slice; zero accepted bytes registers the
waker and stays pending; at least one accepted byte pends the interrupt and
returns the count.  The hardware idle flag `txIdle` is passed in so that the
claim about it is statable; the code never reads it. -/
def writePoll (buf : List Nat) (rb : RingBuffer) (txIdle : Bool) : WriteEff :=
  if buf.isEmpty then
    { result := some (Except.ok 0), rb := rb, pend := false, wakerRegistered := false }
  else
    let n := min rb.pushSliceLen buf.length
    if n = 0 then
      { result := none, rb := rb, pend := false, wakerRegistered := true }
    else
      { result := some (Except.ok n), rb := rb.pushBytes (buf.take n), pend := true,
        wakerRegistered := false }

/-- Lean embedding of `BufferedUartTx::blocking_write` (`buffered.rs`
450-472) up to its first loop iteration: the pre-loop empty-source check,
then one push attempt; a `none` result means the busy-wait loop would spin
again.  Components: result, ring buffer afterwards, whether the interrupt
was pended. -/
def blockingWriteFirst (buf : List Nat) (rb : RingBuffer) :
    Option (Except Error Nat) × RingBuffer × Bool :=
  if buf.isEmpty then (some (Except.ok 0), rb, false)
  else
    let n := min rb.pushSliceLen buf.length
    if n ≠ 0 then (some (Except.ok n), rb.pushBytes (buf.take n), true)
    else (none, rb, false)

/-- Advancing the read cursor by zero bytes leaves the ring unchanged. -/
theorem RingBuffer.popDone_zero (rb : RingBuffer) : rb.popDone 0 = rb := by
  cases rb
  simp [RingBuffer.popDone]

/-- C5: one poll of the asynchronous read on a non-empty destination.  When
the pop yields at least one byte it returns success with exactly those bytes
immediately; when it yields none it takes the latched error word and returns
the synthesized fault if one is present, clearing the word so the very next
poll on the still-empty ring is pending instead of repeating the fault; and
with no data and no fault it registers the waker and is pending. -/
theorem c5_read_poll_cases (bufLen : Nat) (rb : RingBuffer) (errW : Nat)
    (hlen : 0 < bufLen) (hdata : rb.data.length = rb.cap) :
    (0 < rb.popSliceLen →
      (try_read bufLen rb errW).result = some (Except.ok (min rb.popSliceLen bufLen)) ∧
      (try_read bufLen rb errW).bytes = rb.popSlice.take bufLen ∧
      (try_read bufLen rb errW).bytes.length = min rb.popSliceLen bufLen ∧
      0 < min rb.popSliceLen bufLen ∧
      (try_read bufLen rb errW).errWord = errW ∧
      (try_read bufLen rb errW).tookErr = false) ∧
    (rb.popSliceLen = 0 → (get_rx_error errW).1.isSome →
      (∃ e, (get_rx_error errW).1 = some e ∧
        (try_read bufLen rb errW).result = some (Except.error e)) ∧
      (try_read bufLen rb errW).errWord = 0 ∧
      (try_read bufLen rb errW).rb = rb ∧
      (try_read bufLen (try_read bufLen rb errW).rb
        (try_read bufLen rb errW).errWord).result = none) ∧
    (rb.popSliceLen = 0 → (get_rx_error errW).1 = none →
      (try_read bufLen rb errW).result = none ∧
      (readPoll bufLen rb errW).2 = true) := by
  have hne : ¬ bufLen = 0 := Nat.pos_iff_ne_zero.mp hlen
  refine ⟨?_, ?_, ?_⟩
  · intro hpop
    have hn : ¬ min rb.popSliceLen bufLen = 0 := by
      simp [Nat.min_eq_zero_iff]
      exact ⟨Nat.pos_iff_ne_zero.mp hpop, hne⟩
    refine ⟨?_, ?_, ?_, ?_, ?_, ?_⟩ <;>
      simp [try_read, hne, hn]
    · -- length of the copied bytes
      have h1 : rb.popSliceLen ≤ rb.cap - rb.rpos % rb.cap := Nat.min_le_right _ _
      simp [RingBuffer.popSlice, List.length_take, List.length_drop, hdata]
      omega
    · exact ⟨hpop, hlen⟩
  · intro hpop hsome
    obtain ⟨e, he⟩ := Option.isSome_iff_exists.mp hsome
    have hm : min rb.popSliceLen bufLen = 0 := by simp [hpop]
    have hw2 : (get_rx_error errW).2 = 0 := rfl
    have hget : get_rx_error errW = (some e, 0) := by
      rw [← he, ← hw2]
    have hrb : (try_read bufLen rb errW).rb = rb := by
      simp [try_read, hne, hm, hget, RingBuffer.popDone_zero]
    refine ⟨⟨e, he, ?_⟩, ?_, hrb, ?_⟩
    · simp [try_read, hne, hm, hget]
    · simp [try_read, hne, hm, hget]
    · rw [hrb, show (try_read bufLen rb errW).errWord = 0 by
        simp [try_read, hne, hm, hget]]
      have hz : (get_rx_error 0).1 = none := by decide
      have hget0 : get_rx_error 0 = (none, 0) := by decide
      simp [try_read, hne, hm, hget0]
  · intro hpop hnone
    have hm : min rb.popSliceLen bufLen = 0 := by simp [hpop]
    have hw2 : (get_rx_error errW).2 = 0 := rfl
    have hget : get_rx_error errW = (none, 0) := by
      rw [← hnone, ← hw2]
    constructor
    · simp [try_read, hne, hm, hget]
    · simp [readPoll, try_read, hne, hm, hget]

/-- Witness for C5: a one-byte destination against a well-formed ring holding
one queued byte returns that byte at once. -/
theorem c5_read_poll_cases_witness :
    (0 < 1 ∧ (RingBuffer.mk 2 [9, 0] 0 1).data.length = (RingBuffer.mk 2 [9, 0] 0 1).cap) ∧
    (0 < (RingBuffer.mk 2 [9, 0] 0 1).popSliceLen →
      (try_read 1 (RingBuffer.mk 2 [9, 0] 0 1) 0).result =
        some (Except.ok (min (RingBuffer.mk 2 [9, 0] 0 1).popSliceLen 1)) ∧
      (try_read 1 (RingBuffer.mk 2 [9, 0] 0 1) 0).bytes =
        (RingBuffer.mk 2 [9, 0] 0 1).popSlice.take 1 ∧
      (try_read 1 (RingBuffer.mk 2 [9, 0] 0 1) 0).bytes.length =
        min (RingBuffer.mk 2 [9, 0] 0 1).popSliceLen 1 ∧
      0 < min (RingBuffer.mk 2 [9, 0] 0 1).popSliceLen 1 ∧
      (try_read 1 (RingBuffer.mk 2 [9, 0] 0 1) 0).errWord = 0 ∧
      (try_read 1 (RingBuffer.mk 2 [9, 0] 0 1) 0).tookErr = false) := by
  constructor
  · exact ⟨by decide, by decide⟩
  · exact (c5_read_poll_cases 1 (RingBuffer.mk 2 [9, 0] 0 1) 0 (by decide) (by decide)).1

/-- C8: zero-length requests complete immediately with a successful 0-byte
result in all four variants — asynchronous read and write polls, the first
blocking-write attempt, and (because `blocking_read` returns on the first
ready `try_read`) the blocking read — without registering a waker, without
taking the latched error word, without pending the interrupt, and without
touching any ring buffer. -/
theorem c8_zero_length_trivial (rb rb2 : RingBuffer) (errW : Nat) (idle : Bool) :
    try_read 0 rb errW =
      { result := some (Except.ok 0), bytes := [], rb := rb, errWord := errW,
        rearm := false, tookErr := false } ∧
    (readPoll 0 rb errW).2 = false ∧
    writePoll [] rb2 idle =
      { result := some (Except.ok 0), rb := rb2, pend := false,
        wakerRegistered := false } ∧
    blockingWriteFirst [] rb2 = (some (Except.ok 0), rb2, false) := by
  refine ⟨by simp [try_read], ?_, by simp [writePoll], by simp [blockingWriteFirst]⟩
  simp [readPoll, try_read]

/-- C9: `try_read` sets the RX-level FIFO interrupt-enable bit exactly when
it returns ready for a non-empty destination — on the fault path exactly as
on the success path — and the zero-length early return is the only ready
return that leaves the interrupt-enable register untouched. -/
theorem c9_try_read_rearm (bufLen : Nat) (rb : RingBuffer) (errW : Nat) :
    (try_read bufLen rb errW).rearm =
      (decide (0 < bufLen) && (try_read bufLen rb errW).result.isSome) := by
  by_cases hne : bufLen = 0
  · simp [try_read, hne]
  · have hpos : 0 < bufLen := Nat.pos_of_ne_zero hne
    by_cases hm : min rb.popSliceLen bufLen = 0
    · rcases hget : get_rx_error errW with ⟨e, w2⟩
      cases e <;> simp [try_read, hne, hm, hget, hpos]
    · simp [try_read, hne, hm, hpos]

/-- Result of one RX drain pass of `BufferedInterruptHandler::on_interrupt`:
bytes appended, their count, the latched error word afterwards, whether a
fault was hit, the RX ring buffer afterwards, whether the RX waker was
woken, and whether the RX-level interrupt source was masked
(`fifointenclr` write). -/
structure RxPass where
  bytes : List Nat
  nRead : Nat
  errWord : Nat
  error : Bool
  rb : RingBuffer
  wake : Bool
  maskRxLvl : Bool

/-- Lean embedding of the RX drain loop of
`BufferedInterruptHandler::on_interrupt` (`buffered.rs` 578-599).  The
hardware RX FIFO is the list `fifo` of pending items, each a STAT register
value paired with the data byte; `slots` is the length of the contiguous
writable slice obtained once at the start of the pass.  The loop stops when
the slice is exhausted or the FIFO is empty, and stops immediately at a
faulted byte, ORing its whole status word into the error word without
consuming the byte.  Returns the appended bytes, the error word, and the
fault flag. -/
def rxDrainLoop : List (Nat × Nat) → Nat → Nat → List Nat × Nat × Bool
  | _, 0, errW => ([], errW, false)
  | [], _ + 1, errW => ([], errW, false)
  | (stat, byte) :: rest, slots + 1, errW =>
    if stat &&& RXE_MASK ≠ 0 then
      ([], errW ||| stat, true)
    else
      let out := rxDrainLoop rest slots errW
      (byte :: out.1, out.2.1, out.2.2)

/-- Lean embedding of the whole RX branch of
`BufferedInterruptHandler::on_interrupt` (`buffered.rs` 573-614), entered
when the RX ring buffer is available: obtain the contiguous writable slice,
run the drain loop, commit the appended bytes, wake the RX waker when bytes
were appended or (with none appended) when a fault was detected, and mask
the RX-level interrupt source when the ring is full or a fault was
detected. -/
def onInterruptRx (fifo : List (Nat × Nat)) (rb : RingBuffer) (errW : Nat) : RxPass :=
  let out := rxDrainLoop fifo rb.pushSliceLen errW
  let nRead := out.1.length
  let rb2 := if 0 < nRead then rb.pushBytes out.1 else rb
  { bytes := out.1, nRead := nRead, errWord := out.2.1, error := out.2.2, rb := rb2,
    wake := if 0 < nRead then true else out.2.2,
    maskRxLvl := rb2.isFull || out.2.2 }

/-- Result of one TX drain pass: bytes moved into the hardware FIFO, the TX
ring buffer afterwards, and whether the TX waker was woken. -/
structure TxPass where
  nWritten : Nat
  rb : RingBuffer
  wake : Bool

/-- Lean embedding of the TX drain loop of
`BufferedInterruptHandler::on_interrupt` (`buffered.rs` 620-628): iterate
over the contiguous readable slice obtained once at the start (`slots`),
stopping when the hardware TX FIFO reports full (`room` bytes fit). -/
def txDrainLoop : Nat → Nat → Nat
  | 0, _ => 0
  | _ + 1, 0 => 0
  | slots + 1, room + 1 => txDrainLoop slots room + 1

/-- Lean embedding of the whole TX branch of
`BufferedInterruptHandler::on_interrupt` (`buffered.rs` 617-636), entered
when the TX ring buffer is available: obtain the contiguous readable slice,
write bytes to the FIFO while it has room, commit the consumed amount, and
wake the TX waker when any byte was written. -/
def onInterruptTx (rb : RingBuffer) (fifoRoom : Nat) : TxPass :=
  let n := txDrainLoop rb.popSliceLen fifoRoom
  { nWritten := n, rb := if 0 < n then rb.popDone n else rb, wake := decide (0 < n) }

/-- The drain loop over a clean prefix followed by a faulted item consumes
exactly the clean bytes, ORs the faulted status into the error word, and
reports the fault. -/
theorem rxDrainLoop_clean_then_fault (pre : List (Nat × Nat)) :
    ∀ slots errW stat byte rest,
    (∀ p ∈ pre, p.1 &&& RXE_MASK = 0) → pre.length < slots →
    stat &&& RXE_MASK ≠ 0 →
    rxDrainLoop (pre ++ (stat, byte) :: rest) slots errW =
      (pre.map Prod.snd, errW ||| stat, true) := by
  induction pre with
  | nil =>
    intro slots errW stat byte rest _ hlt hfault
    obtain ⟨s, rfl⟩ := Nat.exists_eq_succ_of_ne_zero (Nat.pos_iff_ne_zero.mp hlt)
    simp [rxDrainLoop, hfault]
  | cons p pre ih =>
    intro slots errW stat byte rest hclean hlt hfault
    obtain ⟨s, rfl⟩ := Nat.exists_eq_succ_of_ne_zero
      (Nat.pos_iff_ne_zero.mp (Nat.lt_of_le_of_lt (Nat.zero_le _) hlt))
    rcases p with ⟨pstat, pbyte⟩
    have hp : pstat &&& RXE_MASK = 0 := hclean (pstat, pbyte) (List.mem_cons_self _ _)
    have hrest : ∀ q ∈ pre, q.1 &&& RXE_MASK = 0 :=
      fun q hq => hclean q (List.mem_cons_of_mem _ hq)
    have hlt2 : pre.length < s := Nat.lt_of_succ_lt_succ hlt
    simp [rxDrainLoop, hp, ih s errW stat byte rest hrest hlt2 hfault]

/-- The drain loop never consumes more bytes than the slice has slots. -/
theorem rxDrainLoop_length_le (fifo : List (Nat × Nat)) :
    ∀ slots errW, (rxDrainLoop fifo slots errW).1.length ≤ slots := by
  induction fifo with
  | nil =>
    intro slots errW
    cases slots <;> simp [rxDrainLoop]
  | cons p rest ih =>
    intro slots errW
    cases slots with
    | zero => simp [rxDrainLoop]
    | succ s =>
      rcases p with ⟨stat, byte⟩
      by_cases hfault : stat &&& RXE_MASK ≠ 0
      · simp [rxDrainLoop, hfault]
      · simp only [rxDrainLoop, if_neg hfault, List.length_cons]
        exact Nat.succ_le_succ (ih s errW)

/-- The TX drain loop writes the smaller of the slice length and the FIFO
room. -/
theorem txDrainLoop_eq_min (slots : Nat) :
    ∀ room, txDrainLoop slots room = min slots room := by
  induction slots with
  | zero => intro room; simp [txDrainLoop]
  | succ s ih =>
    intro room
    cases room with
    | zero => simp [txDrainLoop]
    | succ r => simp [txDrainLoop, ih r, Nat.succ_min_succ]

/-- C1: behaviour of one interrupt-bridge RX drain pass.  When the pending
byte after a clean prefix has any fault bit set, the drain stops there: the
appended bytes are exactly the clean prefix, the faulted byte is not
appended, and the status word (in particular its fault bits) is ORed into
the shared error word.  After the loop, the RX waker is woken exactly when
bytes were appended or a fault was detected, and the RX-level interrupt
source is masked exactly when the ring buffer is full or a fault was
detected. -/
theorem c1_rx_drain_pass (fifo : List (Nat × Nat)) (rb : RingBuffer) (errW : Nat) :
    (∀ pre stat byte rest, fifo = pre ++ (stat, byte) :: rest →
      (∀ p ∈ pre, p.1 &&& RXE_MASK = 0) → pre.length < rb.pushSliceLen →
      stat &&& RXE_MASK ≠ 0 →
      (onInterruptRx fifo rb errW).bytes = pre.map Prod.snd ∧
      (onInterruptRx fifo rb errW).nRead = pre.length ∧
      (onInterruptRx fifo rb errW).errWord = errW ||| stat ∧
      (onInterruptRx fifo rb errW).errWord &&& RXE_MASK =
        (errW &&& RXE_MASK) ||| (stat &&& RXE_MASK) ∧
      (onInterruptRx fifo rb errW).error = true) ∧
    ((onInterruptRx fifo rb errW).wake = true ↔
      0 < (onInterruptRx fifo rb errW).nRead ∨
        (onInterruptRx fifo rb errW).error = true) ∧
    ((onInterruptRx fifo rb errW).maskRxLvl = true ↔
      (onInterruptRx fifo rb errW).rb.isFull = true ∨
        (onInterruptRx fifo rb errW).error = true) := by
  refine ⟨?_, ?_, ?_⟩
  · intro pre stat byte rest hsplit hclean hlt hfault
    subst hsplit
    have hrun := rxDrainLoop_clean_then_fault pre rb.pushSliceLen errW stat byte rest
      hclean hlt hfault
    refine ⟨?_, ?_, ?_, ?_, ?_⟩ <;>
      simp [onInterruptRx, hrun, Nat.and_distrib_right]
  · by_cases hn : 0 < (rxDrainLoop fifo rb.pushSliceLen errW).1.length <;>
      simp [onInterruptRx, hn]
  · simp [onInterruptRx, Bool.or_eq_true]

/-- Witness for C1: a two-slot ring receives one clean byte and then a byte
flagged with the framing fault; the pass appends only the clean byte, ORs
the fault into the error word, wakes the RX waker, and masks the RX-level
source. -/
theorem c1_rx_drain_pass_witness :
    ((([((0 : Nat), (65 : Nat))] : List (Nat × Nat)) ++ (RXE_FRAMERR, 66) :: [] =
        [(0, 65)] ++ (RXE_FRAMERR, 66) :: []) ∧
      (∀ p ∈ ([((0 : Nat), (65 : Nat))] : List (Nat × Nat)), p.1 &&& RXE_MASK = 0) ∧
      ([((0 : Nat), (65 : Nat))] : List (Nat × Nat)).length <
        (RingBuffer.mk 4 [0, 0, 0, 0] 0 0).pushSliceLen ∧
      RXE_FRAMERR &&& RXE_MASK ≠ 0) ∧
    ((onInterruptRx ([(0, 65)] ++ (RXE_FRAMERR, 66) :: [])
        (RingBuffer.mk 4 [0, 0, 0, 0] 0 0) 0).bytes =
      ([((0 : Nat), (65 : Nat))] : List (Nat × Nat)).map Prod.snd ∧
    (onInterruptRx ([(0, 65)] ++ (RXE_FRAMERR, 66) :: [])
        (RingBuffer.mk 4 [0, 0, 0, 0] 0 0) 0).nRead =
      ([((0 : Nat), (65 : Nat))] : List (Nat × Nat)).length ∧
    (onInterruptRx ([(0, 65)] ++ (RXE_FRAMERR, 66) :: [])
        (RingBuffer.mk 4 [0, 0, 0, 0] 0 0) 0).errWord = 0 ||| RXE_FRAMERR ∧
    (onInterruptRx ([(0, 65)] ++ (RXE_FRAMERR, 66) :: [])
        (RingBuffer.mk 4 [0, 0, 0, 0] 0 0) 0).errWord &&& RXE_MASK =
      (0 &&& RXE_MASK) ||| (RXE_FRAMERR &&& RXE_MASK) ∧
    (onInterruptRx ([(0, 65)] ++ (RXE_FRAMERR, 66) :: [])
        (RingBuffer.mk 4 [0, 0, 0, 0] 0 0) 0).error = true) :=
  ⟨⟨rfl, by decide, by decide, by decide⟩,
    (c1_rx_drain_pass ([(0, 65)] ++ (RXE_FRAMERR, 66) :: [])
      (RingBuffer.mk 4 [0, 0, 0, 0] 0 0) 0).1
      [(0, 65)] RXE_FRAMERR 66 [] rfl (by decide) (by decide) (by decide)⟩

/-- C10: one interrupt-bridge invocation moves data through at most one
contiguous region of each ring buffer.  The RX pass appends at most the
length of the contiguous writable slice obtained at the start, which never
crosses the wrap point of the backing storage; symmetrically the TX pass
pops at most the contiguous readable slice, which never crosses the wrap
point — any remainder beyond the wrap is left for a later invocation even
when the FIFO could supply or accept more. -/
theorem c10_single_contiguous_region (fifo : List (Nat × Nat)) (rxRb txRb : RingBuffer)
    (errW fifoRoom : Nat) (hrx : 0 < rxRb.cap) (htx : 0 < txRb.cap) :
    (onInterruptRx fifo rxRb errW).nRead ≤ rxRb.pushSliceLen ∧
    rxRb.wpos % rxRb.cap + (onInterruptRx fifo rxRb errW).nRead ≤ rxRb.cap ∧
    (onInterruptTx txRb fifoRoom).nWritten ≤ txRb.popSliceLen ∧
    txRb.rpos % txRb.cap + (onInterruptTx txRb fifoRoom).nWritten ≤ txRb.cap := by
  have h1 : (onInterruptRx fifo rxRb errW).nRead ≤ rxRb.pushSliceLen := by
    simpa [onInterruptRx] using rxDrainLoop_length_le fifo rxRb.pushSliceLen errW
  have h2 : rxRb.pushSliceLen ≤ rxRb.cap - rxRb.wpos % rxRb.cap :=
    Nat.min_le_right _ _
  have h3 : (onInterruptTx txRb fifoRoom).nWritten ≤ txRb.popSliceLen := by
    simp [onInterruptTx, txDrainLoop_eq_min]
  have h4 : txRb.popSliceLen ≤ txRb.cap - txRb.rpos % txRb.cap :=
    Nat.min_le_right _ _
  have h5 : rxRb.wpos % rxRb.cap < rxRb.cap := Nat.mod_lt _ hrx
  have h6 : txRb.rpos % txRb.cap < txRb.cap := Nat.mod_lt _ htx
  exact ⟨h1, by omega, h3, by omega⟩

/-- Witness for C10 at a wrapped ring: capacity 4, write cursor at physical
index 3 with two free slots, so the contiguous writable slice is a single
byte; a three-item FIFO still yields only one appended byte, and the TX side
with a wrapped read cursor pops at most up to the wrap point. -/
theorem c10_single_contiguous_region_witness :
    (0 < (RingBuffer.mk 4 [0, 0, 0, 0] 1 3).cap ∧
      0 < (RingBuffer.mk 4 [7, 0, 0, 8] 3 5).cap) ∧
    ((onInterruptRx [(0, 1), (0, 2), (0, 3)] (RingBuffer.mk 4 [0, 0, 0, 0] 1 3) 0).nRead ≤
        (RingBuffer.mk 4 [0, 0, 0, 0] 1 3).pushSliceLen ∧
      (RingBuffer.mk 4 [0, 0, 0, 0] 1 3).wpos % (RingBuffer.mk 4 [0, 0, 0, 0] 1 3).cap +
        (onInterruptRx [(0, 1), (0, 2), (0, 3)]
          (RingBuffer.mk 4 [0, 0, 0, 0] 1 3) 0).nRead ≤
        (RingBuffer.mk 4 [0, 0, 0, 0] 1 3).cap ∧
      (onInterruptTx (RingBuffer.mk 4 [7, 0, 0, 8] 3 5) 8).nWritten ≤
        (RingBuffer.mk 4 [7, 0, 0, 8] 3 5).popSliceLen ∧
      (RingBuffer.mk 4 [7, 0, 0, 8] 3 5).rpos % (RingBuffer.mk 4 [7, 0, 0, 8] 3 5).cap +
        (onInterruptTx (RingBuffer.mk 4 [7, 0, 0, 8] 3 5) 8).nWritten ≤
        (RingBuffer.mk 4 [7, 0, 0, 8] 3 5).cap) :=
  ⟨⟨by decide, by decide⟩,
    c10_single_contiguous_region [(0, 1), (0, 2), (0, 3)]
      (RingBuffer.mk 4 [0, 0, 0, 0] 1 3) (RingBuffer.mk 4 [7, 0, 0, 8] 3 5) 0 8
      (by decide) (by decide)⟩

/-- C2 counterexample: a successful push while the hardware reports the
transmitter as not idle (`txIdle = false`, third argument) still pends the
interrupt — the poll closure of `BufferedUartTx::write` pends on every
successful push and never consults the idle flag, refuting the claim that a
successful push while the hardware is not idle does not pend. -/
theorem c2_write_pend_counterexample :
    (writePoll [7] (RingBuffer.mk 4 [0, 0, 0, 0] 0 0) false).result =
      some (Except.ok 1) ∧
    (writePoll [7] (RingBuffer.mk 4 [0, 0, 0, 0] 0 0) false).pend = true :=
  ⟨rfl, rfl⟩

/-- C2 amended: the asynchronous write pends the interrupt exactly when the
push accepts at least one byte, regardless of the hardware idle state (the
poll ignores the idle flag entirely); in particular a single write into an
empty TX buffer completes on its first poll with the interrupt pended
exactly once. -/
theorem c2_write_pend_amended (buf : List Nat) (rb : RingBuffer) (idle : Bool) :
    ((writePoll buf rb idle).pend = true ↔
      ∃ n, (writePoll buf rb idle).result = some (Except.ok n) ∧ 0 < n) ∧
    writePoll buf rb idle = writePoll buf rb true ∧
    (buf ≠ [] → 0 < rb.pushSliceLen →
      (writePoll buf rb idle).pend = true ∧
      (writePoll buf rb idle).result.isSome = true) := by
  refine ⟨?_, rfl, ?_⟩
  · by_cases hbuf : buf.isEmpty
    · simp [writePoll, hbuf]
    · by_cases hn : min rb.pushSliceLen buf.length = 0
      · simp [writePoll, hbuf, hn]
      · simp [writePoll, hbuf, hn]
        rw [Nat.min_eq_zero_iff] at hn
        push_neg at hn
        exact ⟨Nat.pos_of_ne_zero hn.1, Nat.pos_of_ne_zero hn.2⟩
  · intro hbuf hslice
    have hlen : 0 < buf.length := List.length_pos.mpr hbuf
    have hne : ¬ buf.isEmpty := by
      simp [List.isEmpty_iff]
      exact hbuf
    have hn : ¬ min rb.pushSliceLen buf.length = 0 := by
      simp [Nat.min_eq_zero_iff]
      exact ⟨Nat.pos_iff_ne_zero.mp hslice, hbuf⟩
    constructor <;> simp [writePoll, hne, hn]

/-- Witness for the amended C2: a one-byte write into an empty four-byte TX
ring pends the interrupt on its single completing poll. -/
theorem c2_write_pend_amended_witness :
    (([7] : List Nat) ≠ [] ∧ 0 < (RingBuffer.mk 4 [0, 0, 0, 0] 0 0).pushSliceLen) ∧
    ((writePoll [7] (RingBuffer.mk 4 [0, 0, 0, 0] 0 0) false).pend = true ∧
      (writePoll [7] (RingBuffer.mk 4 [0, 0, 0, 0] 0 0) false).result.isSome = true) :=
  ⟨⟨by decide, by decide⟩,
    (c2_write_pend_amended [7] (RingBuffer.mk 4 [0, 0, 0, 0] 0 0) false).2.2
      (by decide) (by decide)⟩

/-- Snapshot of the acknowledgeable condition flags of the single `intstat`
register read taken at entry of `BufferedInterruptHandler::on_interrupt`. -/
structure IntStat where
  txidle : Bool
  framerrint : Bool
  parityerrint : Bool
  rxnoiseint : Bool
  aberrint : Bool
deriving DecidableEq

/-- The five interrupt-enable bits the handler's `intenclr` write can
clear. -/
structure IntEnable where
  txidleen : Bool
  framerren : Bool
  parityerren : Bool
  rxnoiseen : Bool
  aberren : Bool
deriving DecidableEq

/-- The disjunction guarding the `intenclr` write in
`BufferedInterruptHandler::on_interrupt` (`buffered.rs` 530-535). -/
def ackConditionSeen (st : IntStat) : Bool :=
  st.txidle || st.framerrint || st.parityerrint || st.rxnoiseint || st.aberrint

/-- Lean embedding of the acknowledgement step of
`BufferedInterruptHandler::on_interrupt` (`buffered.rs` 530-548): when any
of the five conditions is set, one `intenclr` write clears all five enable
bits at once; otherwise the enables are untouched. -/
def clearAckEnables (st : IntStat) (en : IntEnable) : IntEnable :=
  if ackConditionSeen st then
    { txidleen := false, framerren := false, parityerren := false,
      rxnoiseen := false, aberren := false }
  else en

/-- C6 counterexample: with only the idle-after-transmit condition set in
the status snapshot and all five enables armed, the handler also clears the
framing-error enable bit even though the framing condition is not set —
refuting the per-condition if-and-only-if of the claim, which requires an
enable bit of a condition that is not set to be left unchanged. -/
theorem c6_ack_clear_counterexample :
    (IntStat.mk true false false false false).framerrint = false ∧
    (IntEnable.mk true true true true true).framerren = true ∧
    (clearAckEnables (IntStat.mk true false false false false)
      (IntEnable.mk true true true true true)).framerren = false := by
  decide

/-- C6 amended: on every interrupt-bridge invocation, the handler clears all
five acknowledgeable-condition enable bits together if and only if at least
one of the five conditions is reported set in the status snapshot; when none
is set, every enable bit is left unchanged. -/
theorem c6_ack_clear_amended (st : IntStat) (en : IntEnable) :
    (ackConditionSeen st = true →
      clearAckEnables st en = IntEnable.mk false false false false false) ∧
    (ackConditionSeen st = false → clearAckEnables st en = en) := by
  by_cases h : ackConditionSeen st <;> simp [clearAckEnables, h]

/-- Witness for the amended C6: a status snapshot with only the framing
condition set clears all five enables. -/
theorem c6_ack_clear_amended_witness :
    ackConditionSeen (IntStat.mk false true false false false) = true ∧
    clearAckEnables (IntStat.mk false true false false false)
      (IntEnable.mk true true true true true) =
      IntEnable.mk false false false false false :=
  ⟨by decide,
    (c6_ack_clear_amended (IntStat.mk false true false false false)
      (IntEnable.mk true true true true true)).1 (by decide)⟩

/-- First ready result of repeatedly running a poll-style step over a
sequence of observed driver states; `none` means every attempt stayed
pending.  Both the suspending and the busy-waiting variants of an operation
are retry loops of their step, so their observable result is the first ready
value over the same state sequence. -/
def firstReady {σ α : Type} (step : σ → Option α) : List σ → Option α
  | [] => none
  | s :: rest =>
    match step s with
    | some r => some r
    | none => firstReady step rest

/-- One poll of the asynchronous read path (`BufferedUartRx::read`,
`buffered.rs` 256-268), as a result-producing step over the observed
(ring buffer, latched error word) state. -/
def asyncReadStep (bufLen : Nat) (s : RingBuffer × Nat) : Option (Except Error Nat) :=
  (try_read bufLen s.1 s.2).result

/-- One iteration of `BufferedUartRx::blocking_read` (`buffered.rs`
319-326): the match over the same `try_read`, returning on ready and
spinning on pending. -/
def blockingReadStep (bufLen : Nat) (s : RingBuffer × Nat) : Option (Except Error Nat) :=
  match (try_read bufLen s.1 s.2).result with
  | some res => some res
  | none => none

/-- One push attempt of `BufferedUartTx::blocking_write` (`buffered.rs`
455-471), inside the retry loop after the empty-source pre-check. -/
def blockingWriteAttempt (buf : List Nat) (rb : RingBuffer) : Option (Except Error Nat) :=
  let n := min rb.pushSliceLen buf.length
  if n ≠ 0 then some (Except.ok n) else none

/-- Observable result of `BufferedUartTx::blocking_write` over a sequence of
observed TX ring states: the empty-source pre-check, then the busy-wait
retry of push attempts. -/
def blockingWriteRun (buf : List Nat) (rbs : List RingBuffer) :
    Option (Except Error Nat) :=
  if buf.isEmpty then some (Except.ok 0)
  else firstReady (blockingWriteAttempt buf) rbs

/-- Observable result of the asynchronous `BufferedUartTx::write` over the
same sequence of observed TX ring states: the first ready poll. -/
def asyncWriteRun (buf : List Nat) (rbs : List RingBuffer) :
    Option (Except Error Nat) :=
  firstReady (fun rb => (writePoll buf rb true).result) rbs

/-- One poll of the asynchronous `BufferedUartTx::flush` (`buffered.rs`
438-447): pending while the TX ring is non-empty, ready `Ok(())` once it is
empty. -/
def asyncFlushStep (rb : RingBuffer) : Option (Except Error Unit) :=
  if !rb.isEmpty then none else some (Except.ok ())

/-- One iteration of `BufferedUartTx::blocking_flush` (`buffered.rs`
475-481): return `Ok(())` when the TX ring is empty, otherwise spin. -/
def blockingFlushAttempt (rb : RingBuffer) : Option (Except Error Unit) :=
  if rb.isEmpty then some (Except.ok ()) else none

/-- Pointwise equal steps yield the same first ready result over every state
sequence. -/
theorem firstReady_congr {σ α : Type} (f g : σ → Option α)
    (h : ∀ s, f s = g s) : ∀ l : List σ, firstReady f l = firstReady g l := by
  intro l
  induction l with
  | nil => rfl
  | cons s rest ih => simp [firstReady, h s, ih]

/-- C7: for every sequence of observed driver states (one observation per
attempt, produced by the same hardware events), the blocking read, write,
and flush return exactly the result the corresponding asynchronous
operation would return — the write comparison needs at least one attempt,
as both variants always make one. -/
theorem c7_blocking_equals_async (bufLen : Nat) (buf : List Nat)
    (states : List (RingBuffer × Nat)) (rbs flushRbs : List RingBuffer) :
    (firstReady (asyncReadStep bufLen) states =
      firstReady (blockingReadStep bufLen) states) ∧
    (rbs ≠ [] → asyncWriteRun buf rbs = blockingWriteRun buf rbs) ∧
    (firstReady asyncFlushStep flushRbs =
      firstReady blockingFlushAttempt flushRbs) := by
  refine ⟨?_, ?_, ?_⟩
  · refine firstReady_congr _ _ (fun s => ?_) states
    unfold asyncReadStep blockingReadStep
    cases (try_read bufLen s.1 s.2).result <;> rfl
  · intro hne
    by_cases hbuf : buf.isEmpty
    · cases rbs with
      | nil => exact absurd rfl hne
      | cons r rest =>
        simp [asyncWriteRun, blockingWriteRun, hbuf, firstReady, writePoll]
    · unfold asyncWriteRun blockingWriteRun
      rw [if_neg hbuf]
      refine firstReady_congr _ _ (fun rb => ?_) rbs
      unfold blockingWriteAttempt
      by_cases hn : min rb.pushSliceLen buf.length = 0 <;>
        simp [writePoll, hbuf, hn]
  · refine firstReady_congr _ _ (fun rb => ?_) flushRbs
    unfold asyncFlushStep blockingFlushAttempt
    cases h : rb.isEmpty <;> simp [h]

/-- Witness for C7 on concrete one-attempt sequences: a ring holding one
byte for the read, an empty ring for the write, and an empty ring for the
flush. -/
theorem c7_blocking_equals_async_witness :
    ([RingBuffer.mk 2 [0, 0] 0 0] ≠ ([] : List RingBuffer)) ∧
    ((firstReady (asyncReadStep 1) [(RingBuffer.mk 2 [9, 0] 0 1, 0)] =
      firstReady (blockingReadStep 1) [(RingBuffer.mk 2 [9, 0] 0 1, 0)]) ∧
    (asyncWriteRun [7] [RingBuffer.mk 2 [0, 0] 0 0] =
      blockingWriteRun [7] [RingBuffer.mk 2 [0, 0] 0 0]) ∧
    (firstReady asyncFlushStep [RingBuffer.mk 2 [0, 0] 0 0] =
      firstReady blockingFlushAttempt [RingBuffer.mk 2 [0, 0] 0 0])) := by
  have h := c7_blocking_equals_async 1 [7] [(RingBuffer.mk 2 [9, 0] 0 1, 0)]
    [RingBuffer.mk 2 [0, 0] 0 0] [RingBuffer.mk 2 [0, 0] 0 0]
  exact ⟨by decide, h.1, h.2.1 (by decide), h.2.2⟩

end EmbassyImxrt
